import Mathlib

/-!
# Verification of the bep-agent outline-learning pipeline and web front end

This file shallowly embeds the outline-learning pipeline (StructureExtractor,
StructureIndexer, OutlineSuggester) and the relevant fragments of the React
front end (list fetching, dashboard statistics), and proves the specified
properties about them.

The outline-learning pipeline ships with the repository only as documentation
(`OUTLINE_LEARNING_README.md`); its Python sources are not part of the source
tree provided here, so the definitions in the `BepOutline` namespace are
modelled from the specification text, as indicated in each doc comment.
The `BepFrontend` namespace embeds JavaScript code that is present in the
source tree (`frontend/src/components/...`).
-/

namespace BepOutline

/-- Embedding vectors are modelled as lists of rationals (the numeric payload
of a fixed-dimension float vector). -/
abbrev Vec := List ℚ

/-- Modelled from the spec: a detected heading of a source document, as
produced by the style/regex/TOC detection heuristics of StructureExtractor
(the detection heuristics themselves are abstracted: a document carries the
list of headings the detector found, each with the body text that follows it
up to the next heading of level at most its own). -/
structure Heading where
  level : Nat
  title : String
  body : String
deriving Repr, DecidableEq

/-- Modelled from the spec: a readable source document, i.e. its file name,
its full body text, and the headings detected in it. -/
structure Document where
  name : String
  body : String
  headings : List Heading
deriving Repr, DecidableEq

/-- Modelled from the spec: `StructureNode`
`{id, level, title, text_span, doc_id, order}`. -/
structure StructureNode where
  id : String
  level : Nat
  title : String
  text_span : String
  doc_id : String
  order : Nat
deriving Repr, DecidableEq

/-- Modelled from the spec: `StructureExtractor.extract`. A document with
zero detected headings yields a single level-1 node titled from the file
name whose `text_span` is the entire body; otherwise each detected heading
becomes one node, in document order. -/
def extract (doc : Document) : List StructureNode :=
  if doc.headings = [] then
    [{ id := doc.name ++ "_h1_1", level := 1, title := doc.name,
       text_span := doc.body, doc_id := doc.name, order := 0 }]
  else
    doc.headings.enum.map fun p =>
      { id := doc.name ++ "_h" ++ toString p.2.level ++ "_" ++ toString p.1,
        level := p.2.level, title := p.2.title, text_span := p.2.body,
        doc_id := doc.name, order := p.1 }

/-- Modelled from the spec: one row of the structure index: a stored
StructureNode paired with its embedding vector (the `IndexEntry` positional
pairing of metadata record and vector-store row). -/
structure IndexEntry where
  node : StructureNode
  vec : Vec
deriving Repr, DecidableEq

/-- Modelled from the spec: `Candidate {node, similarity_score}`, produced by
retrieval; the stored vector is carried along for the clustering step. -/
structure Candidate where
  node : StructureNode
  vec : Vec
  similarity_score : ℚ
deriving Repr, DecidableEq

/-- Ranking key for search results: higher similarity first, ties broken by
`(doc_id, order)` ascending.  Encoded lexicographically as
(negated score, doc_id, order), to be minimized. -/
def candRank (c : Candidate) : Lex (ℚ × Lex (String × Nat)) :=
  toLex (-c.similarity_score, toLex (c.node.doc_id, c.node.order))

/-- The total preorder used to sort search results. -/
def candLE (a b : Candidate) : Prop := candRank a ≤ candRank b

/-- Strict version of `candLE`. -/
def candLT (a b : Candidate) : Prop := candRank a < candRank b

instance : DecidableRel candLE := fun a b =>
  inferInstanceAs (Decidable (candRank a ≤ candRank b))

instance : DecidableRel candLT := fun a b =>
  inferInstanceAs (Decidable (candRank a < candRank b))

instance : IsTotal Candidate candLE := ⟨fun a b => le_total (candRank a) (candRank b)⟩

instance : IsTrans Candidate candLE := ⟨fun _ _ _ h₁ h₂ => le_trans h₁ h₂⟩

instance : IsAntisymm Candidate candLT :=
  ⟨fun _ _ h₁ h₂ => absurd h₂ (not_lt_of_le (le_of_lt h₁))⟩

/-- The candidate built for index entry `e` when answering a query whose
embedding is `qv`, scored with the similarity function `sim`. -/
def mkCandidate (sim : Vec → Vec → ℚ) (qv : Vec) (e : IndexEntry) : Candidate :=
  { node := e.node, vec := e.vec, similarity_score := sim qv e.vec }

/-- Modelled from the spec: `StructureIndexer.search`.  Embeds the query once,
scores every stored vector with the similarity function `sim` (cosine
similarity in the implementation; the Embedder and the numeric similarity are
external collaborators, passed in as functions), sorts all candidates by
descending score with ties broken by `(doc_id, order)` ascending, and returns
the first `top_k`.  `top_k ≤ 0` returns the empty list. -/
def search (embed : String → Vec) (sim : Vec → Vec → ℚ) (idx : List IndexEntry)
    (query : String) (top_k : Int) : List Candidate :=
  if top_k ≤ 0 then []
  else
    let qv := embed query
    ((idx.map (mkCandidate sim qv)).insertionSort candLE).take top_k.toNat

/-- The human-readable form of the sort order: most similar first, exact ties
ordered by `(doc_id, order)` ascending. -/
def candBefore (a b : Candidate) : Prop :=
  b.similarity_score < a.similarity_score ∨
    (b.similarity_score = a.similarity_score ∧
      (a.node.doc_id < b.node.doc_id ∨
        (a.node.doc_id = b.node.doc_id ∧ a.node.order ≤ b.node.order)))

/-- Lower-case a string character by character. -/
def lowerStr (s : String) : String := String.mk (s.data.map Char.toLower)

/-- Split a character list into maximal whitespace-free words (the
accumulator holds the current word reversed). -/
def splitWords : List Char → List Char → List (List Char)
  | [], acc => if acc = [] then [] else [acc.reverse]
  | c :: cs, acc =>
    if c.isWhitespace then
      (if acc = [] then splitWords cs [] else acc.reverse :: splitWords cs [])
    else splitWords cs (c :: acc)

/-- Modelled from the spec: the normalized title key — case-folded and
whitespace-collapsed (every maximal whitespace run becomes one space, leading
and trailing whitespace dropped). -/
def normTitle (s : String) : String :=
  String.intercalate " " ((splitWords (lowerStr s).data []).map String.mk)

/-- Modelled from the spec: the base merge relation of the clustering step —
two Candidates are directly mergeable when their normalized title keys are
identical or their embedding similarity exceeds the configured threshold. -/
def mergeBase (threshold : ℚ) (sim : Vec → Vec → ℚ) (a b : Candidate) : Bool :=
  normTitle a.node.title == normTitle b.node.title || decide (threshold < sim a.vec b.vec)

/-- Does candidate `c` touch (merge with) a member of cluster `cl`? -/
def touches (rel : Candidate → Candidate → Bool) (c : Candidate) (cl : List Candidate) : Bool :=
  cl.any fun d => rel c d

/-- Add one candidate to a cluster list, merging every cluster it touches
into a single new cluster (incremental connected-components construction). -/
def addCand (rel : Candidate → Candidate → Bool) (cs : List (List Candidate))
    (c : Candidate) : List (List Candidate) :=
  (c :: (cs.filter (touches rel c)).flatten) :: cs.filter (fun cl => !touches rel c cl)

/-- Modelled from the spec: clustering — equivalence classes over pooled
Candidates under the union (connectivity) closure of `rel`. -/
def clusterize (rel : Candidate → Candidate → Bool) (pool : List Candidate) :
    List (List Candidate) :=
  pool.foldl (addCand rel) []

/-- One edge of the merge graph restricted to the pool. -/
def MergeEdge (rel : Candidate → Candidate → Bool) (pool : List Candidate)
    (a b : Candidate) : Prop :=
  a ∈ pool ∧ b ∈ pool ∧ rel a b = true

/-- `a` and `b` were merged by the clustering step: they ended up in the same
cluster. -/
def SameCluster (cs : List (List Candidate)) (a b : Candidate) : Prop :=
  ∃ cl ∈ cs, a ∈ cl ∧ b ∈ cl

/-- Modelled from the spec: a cluster's `frequency` — the number of distinct
source documents (`doc_id` values) contributing a member. -/
def clusterFrequency (cl : List Candidate) : Nat :=
  ((cl.map fun c => c.node.doc_id).dedup).length

/-- Maximum of a list of rationals with an explicit base element. -/
def listMaxQ (x : ℚ) (l : List ℚ) : ℚ := l.foldl max x

/-- Modelled from the spec: a cluster's `max_similarity` — the highest
retrieval score among its members. -/
def clusterMaxSim (c : Candidate) (cl : List Candidate) : ℚ :=
  listMaxQ c.similarity_score (cl.map fun d => d.similarity_score)

/-- Ranking key used to select the representative member of a cluster:
highest similarity, tie-break longest title, then first seen by
`(doc_id, order)`; encoded lexicographically, to be minimized. -/
def repRank (c : Candidate) : Lex (ℚ × Lex (ℤ × Lex (String × Nat))) :=
  toLex (-c.similarity_score,
    toLex (-(c.node.title.length : ℤ), toLex (c.node.doc_id, c.node.order)))

/-- Pick the best representative among `c :: cl` under `repRank`. -/
def chooseRep (c : Candidate) (cl : List Candidate) : Candidate :=
  cl.foldl (fun best d => if repRank d < repRank best then d else best) c

/-- Minimum of a list of naturals with an explicit base element. -/
def listMinNat (x : Nat) (l : List Nat) : Nat := l.foldl min x

/-- Modelled from the spec: the minimum heading level observed (among pooled
candidates) in a given source document, used for per-document level
normalization. -/
def docMinLevel (pool : List Candidate) (d : String) : Nat :=
  match (pool.filter fun c => c.node.doc_id == d).map fun c => c.node.level with
  | [] => 1
  | x :: xs => listMinNat x xs

/-- Modelled from the spec: per-document canonical level — shift so the
minimum level observed in the candidate's document maps to 1. -/
def canonLevel (pool : List Candidate) (c : Candidate) : Nat :=
  c.node.level - docMinLevel pool c.node.doc_id + 1

/-- The position in the pool at which a candidate was first retrieved. -/
def firstSeen (pool : List Candidate) (c : Candidate) (cl : List Candidate) : Nat :=
  listMinNat (pool.indexOf c) (cl.map fun d => pool.indexOf d)

/-- Summary of one dedup cluster, as used by hierarchy assembly:
representative title, canonical level, frequency, max similarity, and the
original retrieval position of its earliest member. -/
structure CInfo where
  title : String
  level : Nat
  freq : Nat
  maxSim : ℚ
  seen : Nat
deriving Repr, DecidableEq

/-- Build the summary of one (nonempty) cluster. -/
def mkCInfo (pool : List Candidate) (c : Candidate) (rest : List Candidate) : CInfo :=
  { title := (chooseRep c rest).node.title
    level := canonLevel pool (chooseRep c rest)
    freq := clusterFrequency (c :: rest)
    maxSim := clusterMaxSim c rest
    seen := firstSeen pool c rest }

/-- Summaries of all clusters of the pool, in construction order. -/
def clusterInfos (rel : Candidate → Candidate → Bool) (pool : List Candidate) : List CInfo :=
  (clusterize rel pool).filterMap fun cl =>
    match cl with
    | [] => none
    | c :: rest => some (mkCInfo pool c rest)

/-- Cluster ranking key: descending frequency, then descending maximum
similarity, then original retrieval order; encoded lexicographically, to be
minimized. -/
def cinfoRank (c : CInfo) : Lex (ℤ × Lex (ℚ × Nat)) :=
  toLex (-(c.freq : ℤ), toLex (-c.maxSim, c.seen))

/-- The total preorder used to rank clusters. -/
def cinfoLE (a b : CInfo) : Prop := cinfoRank a ≤ cinfoRank b

instance : DecidableRel cinfoLE := fun a b =>
  inferInstanceAs (Decidable (cinfoRank a ≤ cinfoRank b))

instance : IsTotal CInfo cinfoLE := ⟨fun a b => le_total (cinfoRank a) (cinfoRank b)⟩

instance : IsTrans CInfo cinfoLE := ⟨fun _ _ _ h₁ h₂ => le_trans h₁ h₂⟩

/-- A placeholder cluster summary used for out-of-range lookups. -/
def dummyCInfo : CInfo := { title := "", level := 0, freq := 0, maxSim := 0, seen := 0 }

/-- The canonical level of the `i`-th ranked cluster (0 out of range). -/
def levelAt (ranked : List CInfo) (i : Nat) : Nat := (ranked.getD i dummyCInfo).level

/-- Modelled from the spec: the parent of the `i`-th ranked cluster — the
nearest preceding cluster (in ranked order) whose canonical level is exactly
one less; `none` when no such cluster exists. -/
def parentIdx (ranked : List CInfo) (i : Nat) : Option Nat :=
  ((List.range i).filter fun j => levelAt ranked j + 1 == levelAt ranked i).getLast?

/-- Modelled from the spec: `Section` — recursive
`{title, level, source_similarity, frequency, subsections}`. -/
inductive Section where
  | mk : String → Nat → ℚ → Nat → List Section → Section
deriving Repr

/-- The title of a section. -/
def Section.title : Section → String
  | .mk t _ _ _ _ => t

/-- The (canonical) level of a section. -/
def Section.level : Section → Nat
  | .mk _ l _ _ _ => l

/-- The `source_similarity` of a section. -/
def Section.source_similarity : Section → ℚ
  | .mk _ _ s _ _ => s

/-- The `frequency` of a section. -/
def Section.frequency : Section → Nat
  | .mk _ _ _ f _ => f

/-- The subsections of a section. -/
def Section.subsections : Section → List Section
  | .mk _ _ _ _ subs => subs

/-- The indices of the ranked clusters whose parent is cluster `i`. -/
def childIdxs (ranked : List CInfo) (i : Nat) : List Nat :=
  (List.range ranked.length).filter fun k => parentIdx ranked k == some i

theorem parentIdx_lt {ranked : List CInfo} {i j : Nat}
    (h : parentIdx ranked i = some j) : j < i := by
  unfold parentIdx at h
  have h' : j ∈ ((List.range i).filter
      fun j => levelAt ranked j + 1 == levelAt ranked i).getLast? :=
    Option.mem_def.mpr h
  obtain ⟨hne, hj⟩ := List.mem_getLast?_eq_getLast h'
  have hmem : j ∈ (List.range i).filter
      (fun j => levelAt ranked j + 1 == levelAt ranked i) :=
    hj ▸ List.getLast_mem hne
  exact List.mem_range.mp (List.mem_of_mem_filter hmem)

/-- Build the section subtree rooted at ranked cluster `i`. -/
def buildSection (ranked : List CInfo) (i : Nat) : Section :=
  let c := ranked.getD i dummyCInfo
  Section.mk c.title c.level c.maxSim c.freq
    ((childIdxs ranked i).attach.map fun kh => buildSection ranked kh.1)
termination_by ranked.length - i
decreasing_by
  rcases kh with ⟨k, hk⟩
  show ranked.length - k < ranked.length - i
  have hk' := List.mem_filter.mp hk
  have hkr : k < ranked.length := List.mem_range.mp hk'.1
  have hpi : parentIdx ranked k = some i := by
    have := hk'.2
    simpa using this
  have hik : i < k := parentIdx_lt hpi
  omega

/-- Modelled from the spec: hierarchy assembly — the top-level sections are
the ranked clusters with no preceding cluster of canonical level exactly one
less; every other cluster is attached under its `parentIdx` parent. -/
def assemble (ranked : List CInfo) : List Section :=
  (((List.range ranked.length).filter fun k => parentIdx ranked k == none).map
    (buildSection ranked))

/-- Modelled from the spec: `OutlineDraft.metadata`. -/
structure OutlineMeta where
  source_documents : List String
  total_nodes_considered : Nat
  generation_method : String
deriving Repr, DecidableEq

/-- Modelled from the spec: `OutlineDraft {title, sections, metadata}`. -/
structure OutlineDraft where
  title : String
  sections : List Section
  metadata : OutlineMeta
deriving Repr

/-- The text embedded or searched for a node: the concatenation of title and
`text_span`, or the title alone when the body is empty. -/
def nodeText (n : StructureNode) : String :=
  if n.text_span = "" then n.title else n.title ++ " " ++ n.text_span

/-- Modelled from the spec: the query nodes of a suggestion request — an
empty requirements document yields zero query nodes; otherwise the document
is extracted as usual. -/
def queryNodes (doc : Document) : List StructureNode :=
  if doc.body = "" ∧ doc.headings = [] then [] else extract doc

/-- Modelled from the spec: `OutlineSuggester.suggest`.  Extracts query nodes,
retrieves `top_k` candidates per query node, pools them, clusters them under
the title-key/similarity union rule, ranks clusters by descending frequency
then descending max similarity then original retrieval order, assembles the
section hierarchy, and fills in the draft metadata. -/
def suggest (embed : String → Vec) (sim : Vec → Vec → ℚ) (threshold : ℚ)
    (idx : List IndexEntry) (doc : Document) (top_k : Int) : OutlineDraft :=
  let pool := (queryNodes doc).flatMap fun n => search embed sim idx (nodeText n) top_k
  let ranked := (clusterInfos (mergeBase threshold sim) pool).insertionSort cinfoLE
  { title := doc.name
    sections := assemble ranked
    metadata :=
      { source_documents := (pool.map fun c => c.node.doc_id).dedup
        total_nodes_considered := pool.length
        generation_method := "frequency_semantic_dedup" } }

/-- Modelled from the spec: one record of the metadata file
`{id, level, title, text_span, doc_id, vector_id}`. -/
structure MetaRecord where
  id : String
  level : Nat
  title : String
  text_span : String
  doc_id : String
  vector_id : Nat
deriving Repr, DecidableEq

/-- Modelled from the spec: the on-disk state of an index build — the vector
store (rows of vectors) paired with the metadata array. -/
structure BuildState where
  vectors : List Vec
  metadata : List MetaRecord
deriving Repr, DecidableEq

/-- The metadata record of node `n` stored at vector row `row`. -/
def mkRecord (n : StructureNode) (row : Nat) : MetaRecord :=
  { id := n.id, level := n.level, title := n.title, text_span := n.text_span,
    doc_id := n.doc_id, vector_id := row }

/-- Modelled from the spec: appending one embedding batch to the index.  A
successful batch commits the vectors and their matching metadata records
together as one unit (pairing node `i` of the batch with vector `i`); a
failed batch (`none` from the embedder after retries) leaves the state
untouched. -/
def appendBatch (st : BuildState) (batch : List StructureNode)
    (embRes : Option (List Vec)) : BuildState :=
  match embRes with
  | none => st
  | some vs =>
    let pairs := batch.zip vs
    { vectors := st.vectors ++ pairs.map fun p => p.2
      metadata := st.metadata ++ pairs.enum.map fun q =>
        mkRecord q.2.1 (st.vectors.length + q.1) }

/-- Modelled from the spec: the batched build loop — fold `appendBatch` over
the batch sequence, with `embedB` giving each batch's embedding outcome
(`none` = the batch failed after exhausting retries). -/
def runBuild (embedB : List StructureNode → Option (List Vec))
    (batches : List (List StructureNode)) (st : BuildState) : BuildState :=
  batches.foldl (fun s b => appendBatch s b (embedB b)) st

/-- The IndexEntry invariant: the vector store and the metadata array have
the same number of rows. -/
def RowsMatch (st : BuildState) : Prop := st.vectors.length = st.metadata.length

/-- Render a rational as a JSON-ish numeric token. -/
def qToString (q : ℚ) : String := toString q.num ++ "/" ++ toString q.den

/-- Serialize a list of strings as a JSON array of strings. -/
def strListToJson (l : List String) : String :=
  "[" ++ String.intercalate "," (l.map fun s => "\"" ++ s ++ "\"") ++ "]"

mutual

/-- Serialize one section to JSON text. -/
def sectionToJson : Section → String
  | .mk t lvl s f subs =>
    "\x7b\"title\":\"" ++ t ++ "\",\"level\":" ++ toString lvl ++
      ",\"source_similarity\":" ++ qToString s ++ ",\"frequency\":" ++ toString f ++
      ",\"subsections\":[" ++ sectionListToJson subs ++ "]\x7d"

/-- Serialize a list of sections to comma-separated JSON text. -/
def sectionListToJson : List Section → String
  | [] => ""
  | [s] => sectionToJson s
  | s :: s' :: rest => sectionToJson s ++ "," ++ sectionListToJson (s' :: rest)

end

/-- Serialize an entire draft to JSON text (the byte-level output of the
suggestion pipeline). -/
def draftToJson (d : OutlineDraft) : String :=
  "\x7b\"title\":\"" ++ d.title ++ "\",\"sections\":[" ++
    sectionListToJson d.sections ++ "],\"metadata\":\x7b\"source_documents\":" ++
    strListToJson d.metadata.source_documents ++ ",\"total_nodes_considered\":" ++
    toString d.metadata.total_nodes_considered ++ ",\"generation_method\":\"" ++
    d.metadata.generation_method ++ "\"\x7d\x7d"

/-- The per-link level invariant of the spec: every subsection sits exactly
one canonical level below its parent, recursively. -/
inductive WellLeveled : Section → Prop where
  | mk {t : String} {lvl : Nat} {s : ℚ} {f : Nat} {subs : List Section} :
      (∀ x ∈ subs, Section.level x = lvl + 1) →
      (∀ x ∈ subs, WellLeveled x) →
      WellLeveled (Section.mk t lvl s f subs)

end BepOutline

namespace BepFrontend

/-- A JSON value, as received from the API by the React components. -/
inductive Json where
  | null
  | str (s : String)
  | num (n : Int)
  | arr (xs : List Json)
  | obj (fields : List (String × Json))

/-- `Array.isArray` on a JSON value. -/
def Json.isArray : Json → Bool
  | .arr _ => true
  | _ => false

/-- JavaScript property access `v.k` on a JSON object (first matching field;
`none` models `undefined`). -/
def Json.getField : Json → String → Option Json
  | .obj fs, k => (fs.find? fun f => f.1 == k).map fun f => f.2
  | _, _ => none

/-- The response normalization shared by `fetchProjects` (Projects.js),
`fetchGoals` (Goals.js), `fetchItems` (TIDP component) and `fetchComments`
(Comments component):
`const data = Array.isArray(res.data) ? { items: res.data } : res.data`. -/
def normalizeListResponse (v : Json) : Json :=
  if v.isArray then .obj [("items", v)] else v

/-- The component state set by each list fetch: the `items` field of the
normalized payload (`setItems(data.items)` and its analogues). -/
def listFetchState (v : Json) : Option Json :=
  (normalizeListResponse v).getField "items"

/-- `fetchProjects` in Projects.js sets state from `listFetchState`. -/
def fetchProjectsState (v : Json) : Option Json := listFetchState v

/-- `fetchGoals` in Goals.js sets state from `listFetchState`. -/
def fetchGoalsState (v : Json) : Option Json := listFetchState v

/-- `fetchItems` in the TIDP component sets state from `listFetchState`. -/
def fetchTidpState (v : Json) : Option Json := listFetchState v

/-- `fetchComments` in the Comments component sets state from
`listFetchState`. -/
def fetchCommentsState (v : Json) : Option Json := listFetchState v

/-- Round `a / b` to the nearest integer, ties to even (the rounding used by
IEEE-754 binary64 arithmetic). -/
def rne (a b : Nat) : Nat :=
  let q := a / b
  let r := a % b
  if b < 2 * r then q + 1
  else if 2 * r < b then q
  else if q % 2 = 0 then q else q + 1

/-- Fuelled base-2 logarithm (position of the highest set bit); the fuel
argument makes it structurally recursive, and fuel `n` always suffices. -/
def log2F : Nat → Nat → Nat
  | 0, _ => 0
  | fuel + 1, n => if n ≤ 1 then 0 else log2F fuel (n / 2) + 1

/-- `nlog2 n` is the position of the highest set bit of `n` (0 for 0). -/
def nlog2 (n : Nat) : Nat := log2F n n

/-- `Math.floor(n * 0.7)` in IEEE-754 binary64 arithmetic, for a
non-negative integer `n` (exactly representable for `n < 2^53`, which covers
every goals count the dashboard can see).  The binary64 value of the literal
`0.7` is exactly `3152519739159347 / 2^52`; the product is rounded to 53
significand bits, nearest-even, and then floored — all in exact integer
arithmetic. -/
def jsFloorMul07 (n : Nat) : Nat :=
  let P := n * 3152519739159347
  if P = 0 then 0
  else
    let L := nlog2 P
    if L ≤ 52 then P / 2 ^ 52
    else
      let s := L - 52
      let m := rne P (2 ^ s)
      m * 2 ^ s / 2 ^ 52

/-- Round the positive quotient `a / D` to an IEEE-754 binary64 value,
returned as a significand/exponent pair `(m, k)` with value `m / 2^k`
(`m` has 53 bits unless the quotient is tiny); normal range only, which
covers every realistic epoch-millisecond quotient. -/
def doublePosDiv (a D : Nat) : Nat × Int :=
  if a = 0 then (0, 0)
  else
    let k0 : Int := 52 + (nlog2 D : Int) - (nlog2 a : Int)
    let inRange : Bool :=
      if 0 ≤ k0 then decide (2 ^ 52 * D ≤ a * 2 ^ k0.toNat)
      else decide (2 ^ 52 * (D * 2 ^ (-k0).toNat) ≤ a)
    let k := if inRange then k0 else k0 + 1
    let m := if 0 ≤ k then rne (a * 2 ^ k.toNat) D else rne a (D * 2 ^ (-k).toNat)
    (m, k)

/-- `Math.ceil(d / 86400000)` in IEEE-754 binary64 arithmetic (the
days-until-deadline computation of Dashboard.js): the exact integer `d` is
divided as a double, rounded nearest-even to 53 bits, then ceiled. -/
def jsCeilDivDay (d : Int) : Int :=
  if d = 0 then 0
  else if 0 < d then
    let p := doublePosDiv d.toNat 86400000
    if 0 ≤ p.2 then ((p.1 + 2 ^ p.2.toNat - 1) / 2 ^ p.2.toNat : Nat)
    else (p.1 * 2 ^ (-p.2).toNat : Nat)
  else
    let p := doublePosDiv (-d).toNat 86400000
    if 0 ≤ p.2 then -((p.1 / 2 ^ p.2.toNat : Nat) : Int)
    else -((p.1 * 2 ^ (-p.2).toNat : Nat) : Int)

/-- A project record as consumed by Dashboard.js (`status` and
`goals_count` are the only fields its statistics read). -/
structure Project where
  status : String
  goals_count : Nat
deriving Repr, DecidableEq

/-- A task record as consumed by Dashboard.js (due date in epoch
milliseconds). -/
structure Task where
  due_date : Int
  status : String
deriving Repr, DecidableEq

/-- One entry of the Recent Comments panel. -/
structure CommentItem where
  id : Nat
  user_name : String
  text : String
  created_at : Int
deriving Repr, DecidableEq

/-- The dashboard component state set by `fetchDashboardData`. -/
structure DashboardState where
  totalProjects : Nat
  activeProjects : Nat
  completedGoals : Nat
  totalGoals : Nat
  upcomingDeadlines : Nat
  overdueTasks : Nat
  recentProjects : List Project
  myTasks : List Task
  recentComments : List CommentItem
deriving Repr, DecidableEq

/-- The hard-coded Recent Comments list from Dashboard.js (`now` is the
current epoch-millisecond clock used for the two `created_at` stamps). -/
def mockRecentComments (now : Int) : List CommentItem :=
  [{ id := 1, user_name := "BIM Manager",
     text := "Initial coordination meeting scheduled for next week.",
     created_at := now },
   { id := 2, user_name := "Design Lead",
     text := "Structural model is 80% complete. Need input from MEP team.",
     created_at := now - 86400000 }]

/-- `fetchDashboardData` from Dashboard.js: computes the statistics from the
fetched projects and tasks (`now` = current time in epoch milliseconds).
JavaScript number arithmetic is modelled with exact binary64 semantics:
the goals sum and the date differences are integers, exactly representable
below `2^53`, and the two floating-point operations of the source —
`Math.floor(totalGoals * 0.7)` and `Math.ceil((due - today) / 86400000)` —
are `jsFloorMul07` and `jsCeilDivDay`. -/
def fetchDashboardData (projects : List Project) (tasks : List Task)
    (now : Int) : DashboardState :=
  let totalGoals : Nat := (projects.map fun p => p.goals_count).sum
  { totalProjects := projects.length
    activeProjects := (projects.filter fun p => p.status == "active").length
    completedGoals := jsFloorMul07 totalGoals
    totalGoals := totalGoals
    upcomingDeadlines := (tasks.filter fun t =>
      let diffDays : Int := jsCeilDivDay (t.due_date - now)
      diffDays ≤ 7 ∧ 0 ≤ diffDays).length
    overdueTasks := (tasks.filter fun t =>
      t.due_date < now ∧ t.status ≠ "completed").length
    recentProjects := projects.take 3
    myTasks := tasks.take 5
    recentComments := mockRecentComments now }

end BepFrontend

namespace BepOutline

theorem appendBatch_rowsMatch {st : BuildState} {b : List StructureNode}
    {r : Option (List Vec)} (h : RowsMatch st) : RowsMatch (appendBatch st b r) := by
  cases r with
  | none => exact h
  | some vs =>
    simp only [RowsMatch] at h
    simp only [appendBatch, RowsMatch, List.length_append, List.length_map,
      List.enum_length]
    omega

theorem runBuild_rowsMatch (embedB : List StructureNode → Option (List Vec))
    (batches : List (List StructureNode)) {st : BuildState} (h : RowsMatch st) :
    RowsMatch (runBuild embedB batches st) := by
  induction batches generalizing st with
  | nil => exact h
  | cons b bs ih => exact ih (appendBatch_rowsMatch h)

/-- C3: at every point of an index build — after any sequence of batch
outcomes, starting from any state satisfying the IndexEntry invariant — the
vector store and the metadata array have equally many rows, and a failed
batch leaves the state exactly as it was (never advancing the metadata array
past the vector store). -/
theorem build_preserves_rows_match
    (embedB : List StructureNode → Option (List Vec))
    (batches : List (List StructureNode)) (st : BuildState)
    (h : RowsMatch st) :
    RowsMatch (runBuild embedB batches st) ∧
      (∀ b : List StructureNode, appendBatch st b none = st) := by
  exact ⟨runBuild_rowsMatch embedB batches h, fun _ => rfl⟩

/-- Witness for C3: a concrete two-batch build (one success, one failure)
from the empty index. -/
theorem build_preserves_rows_match_witness :
    RowsMatch (runBuild
      (fun b => if b.length = 1 then some [[(1 : ℚ)]] else none)
      [[{ id := "a", level := 1, title := "T", text_span := "", doc_id := "d",
          order := 0 }], []]
      { vectors := [], metadata := [] }) ∧
      (∀ b : List StructureNode,
        appendBatch { vectors := [], metadata := [] } b none =
          { vectors := [], metadata := [] }) :=
  build_preserves_rows_match _ _ _ rfl

/-- C6: a readable document in which zero headings were detected extracts to
exactly one node, at level 1, titled from the file name, whose `text_span`
is the entire body. -/
theorem extract_zero_headings (doc : Document) (h : doc.headings = []) :
    (extract doc).length = 1 ∧
      ∀ n ∈ extract doc,
        n.level = 1 ∧ n.title = doc.name ∧ n.text_span = doc.body := by
  refine ⟨by simp [extract, h], ?_⟩
  intro n hn
  simp [extract, h] at hn
  subst hn
  exact ⟨rfl, rfl, rfl⟩

/-- Witness for C6 at a concrete heading-less document. -/
theorem extract_zero_headings_witness :
    (extract { name := "req.docx", body := "plain body text", headings := [] }).length = 1 ∧
      ∀ n ∈ extract { name := "req.docx", body := "plain body text", headings := [] },
        n.level = 1 ∧ n.title = "req.docx" ∧ n.text_span = "plain body text" :=
  extract_zero_headings _ rfl

/-- A concrete similarity backend used in witnesses: the dot product. -/
def dotQ (a b : Vec) : ℚ := ((a.zip b).map fun p => p.1 * p.2).sum

/-- A concrete embedder used in witnesses: every text maps to `[1]`. -/
def embedOne : String → Vec := fun _ => [1]

/-- A concrete constant similarity backend used in witnesses. -/
def simOne : Vec → Vec → ℚ := fun _ _ => 1

/-- A concrete stored node used in witnesses. -/
def nodeScope : StructureNode :=
  { id := "d_h1_0", level := 1, title := "Scope", text_span := "",
    doc_id := "d.docx", order := 0 }

/-- A concrete one-entry index used in witnesses. -/
def idxOne : List IndexEntry := [{ node := nodeScope, vec := [1] }]

/-- A concrete empty requirements document used in witnesses. -/
def docEmpty : Document := { name := "empty.docx", body := "", headings := [] }

/-- A concrete non-empty requirements document used in witnesses. -/
def docReq : Document := { name := "req.docx", body := "b", headings := [] }

theorem suggest_of_no_pool (embed : String → Vec) (sim : Vec → Vec → ℚ)
    (threshold : ℚ) (idx : List IndexEntry) (doc : Document) (k : Int)
    (h : (queryNodes doc).flatMap
      (fun n => search embed sim idx (nodeText n) k) = []) :
    (suggest embed sim threshold idx doc k).sections = [] ∧
      (suggest embed sim threshold idx doc k).metadata.total_nodes_considered = 0 := by
  constructor
  · simp [suggest, h, clusterInfos, clusterize, assemble]
  · simp [suggest, h]

/-- C7: an empty requirements document yields an `OutlineDraft` with empty
`sections` and `total_nodes_considered = 0` (and, the suggester being a
total function in this model, no exception can be raised). -/
theorem suggest_empty_requirements (embed : String → Vec) (sim : Vec → Vec → ℚ)
    (threshold : ℚ) (idx : List IndexEntry) (doc : Document) (k : Int)
    (h1 : doc.body = "") (h2 : doc.headings = []) :
    (suggest embed sim threshold idx doc k).sections = [] ∧
      (suggest embed sim threshold idx doc k).metadata.total_nodes_considered = 0 := by
  have hq : queryNodes doc = [] := by simp [queryNodes, h1, h2]
  exact suggest_of_no_pool embed sim threshold idx doc k (by simp [hq])

/-- Witness for C7 at a concrete empty requirements document over a
nonempty index. -/
theorem suggest_empty_requirements_witness :
    (suggest embedOne dotQ (8 / 10) idxOne docEmpty 5).sections = [] ∧
      OutlineMeta.total_nodes_considered
        (suggest embedOne dotQ (8 / 10) idxOne docEmpty 5).metadata = 0 :=
  suggest_empty_requirements _ _ _ _ _ _ rfl rfl

/-- C8: a non-positive `top_k` makes `search` return the empty sequence
rather than an error, and a `suggest` call with `top_k = 0` yields zero
candidates and an empty outline. -/
theorem topk_nonpositive (embed : String → Vec) (sim : Vec → Vec → ℚ)
    (threshold : ℚ) (idx : List IndexEntry) (doc : Document) (q : String)
    (k : Int) (hk : k ≤ 0) :
    search embed sim idx q k = [] ∧
      (suggest embed sim threshold idx doc 0).sections = [] ∧
      (suggest embed sim threshold idx doc 0).metadata.total_nodes_considered = 0 := by
  have hs : ∀ q' : String, search embed sim idx q' 0 = [] := by
    intro q'
    simp [search]
  refine ⟨by simp [search, hk], ?_⟩
  exact suggest_of_no_pool embed sim threshold idx doc 0 (by simp [hs])

/-- Witness for C8 at `top_k = 0` over a concrete nonempty index and
non-empty requirements document. -/
theorem topk_nonpositive_witness :
    search embedOne dotQ idxOne "scope" 0 = [] ∧
      (suggest embedOne dotQ (8 / 10) idxOne docReq 0).sections = [] ∧
      OutlineMeta.total_nodes_considered
        (suggest embedOne dotQ (8 / 10) idxOne docReq 0).metadata = 0 :=
  topk_nonpositive _ _ _ _ _ _ 0 (le_refl 0)

/-- C5: the suggestion pipeline is a deterministic function of the
requirements document, the index, the similarity backend, and the threshold:
two runs on identical inputs produce byte-identical serialized drafts. -/
theorem suggest_deterministic (e₁ e₂ : String → Vec) (s₁ s₂ : Vec → Vec → ℚ)
    (t₁ t₂ : ℚ) (i₁ i₂ : List IndexEntry) (d₁ d₂ : Document) (k₁ k₂ : Int)
    (he : e₁ = e₂) (hs : s₁ = s₂) (ht : t₁ = t₂) (hi : i₁ = i₂)
    (hd : d₁ = d₂) (hk : k₁ = k₂) :
    draftToJson (suggest e₁ s₁ t₁ i₁ d₁ k₁) =
      draftToJson (suggest e₂ s₂ t₂ i₂ d₂ k₂) := by
  subst he hs ht hi hd hk
  rfl

/-- Witness for C5: two identical concrete runs, serialized. -/
theorem suggest_deterministic_witness :
    draftToJson (suggest embedOne dotQ (8 / 10) idxOne docReq 3) =
      draftToJson (suggest embedOne dotQ (8 / 10) idxOne docReq 3) :=
  suggest_deterministic _ _ _ _ _ _ _ _ _ _ _ _ rfl rfl rfl rfl rfl rfl

/-- The tie-break key of a candidate: its node's `(doc_id, order)`. -/
def candKey (c : Candidate) : String × Nat := (c.node.doc_id, c.node.order)

theorem candLE_iff_candBefore (a b : Candidate) : candLE a b ↔ candBefore a b := by
  unfold candLE candRank candBefore
  rw [Prod.Lex.le_iff, Prod.Lex.le_iff]
  simp only [neg_lt_neg_iff, neg_inj]
  tauto

theorem candLE_score {a b : Candidate} (h : candLE a b) :
    b.similarity_score ≤ a.similarity_score := by
  rcases (candLE_iff_candBefore a b).mp h with h' | ⟨h', _⟩
  · exact le_of_lt h'
  · exact le_of_eq h'

theorem candKey_eq_of_rank_eq {a b : Candidate} (h : candRank a = candRank b) :
    candKey a = candKey b := by
  unfold candRank at h
  have h2 := congrArg (fun x : Lex (ℚ × Lex (String × Nat)) => (ofLex x).2) h
  simpa [candKey] using h2

theorem sorted_strict_of_nodup_keys {l : List Candidate}
    (hs : l.Sorted candLE) (hk : (l.map candKey).Nodup) : l.Sorted candLT := by
  have hpw : l.Pairwise fun a b => candKey a ≠ candKey b :=
    List.pairwise_map.mp hk
  refine (hs.and hpw).imp ?_
  rintro a b ⟨h1, h2⟩
  exact lt_of_le_of_ne h1 fun hr => h2 (candKey_eq_of_rank_eq hr)

theorem insertionSort_key_nodup {idx : List IndexEntry} (qv : Vec)
    (sim : Vec → Vec → ℚ)
    (hkeys : (idx.map fun e => (e.node.doc_id, e.node.order)).Nodup) :
    (((idx.map (mkCandidate sim qv)).insertionSort candLE).map candKey).Nodup := by
  have hmapkey : (idx.map (mkCandidate sim qv)).map candKey =
      idx.map fun e => (e.node.doc_id, e.node.order) := by
    rw [List.map_map]
    rfl
  have hperm : ((idx.map (mkCandidate sim qv)).insertionSort candLE).map candKey
      |>.Perm ((idx.map (mkCandidate sim qv)).map candKey) :=
    (List.perm_insertionSort candLE (idx.map (mkCandidate sim qv))).map candKey
  rw [hperm.nodup_iff, hmapkey]
  exact hkeys

/-- C2: `search` embeds the query once and scores all stored vectors, returns
`min top_k n` candidates ordered most similar first with exact-score ties
broken by `(doc_id, order)` ascending, every returned candidate scores at
least as high as every stored candidate left out, and (given distinct
`(doc_id, order)` keys, which each document's `order` numbering guarantees)
the ranking is invariant under any permutation of the stored entries — the
ranking is deterministic and reproducible. -/
theorem search_spec (embed : String → Vec) (sim : Vec → Vec → ℚ)
    (idx : List IndexEntry) (q : String) (k : Int) (hk : 0 < k) :
    (search embed sim idx q k).length = min k.toNat idx.length ∧
      (search embed sim idx q k).Sorted candBefore ∧
      (∀ c ∈ search embed sim idx q k, ∃ e ∈ idx, c = mkCandidate sim (embed q) e) ∧
      (∀ c ∈ search embed sim idx q k, ∀ e ∈ idx,
        mkCandidate sim (embed q) e ∉ search embed sim idx q k →
          (mkCandidate sim (embed q) e).similarity_score ≤ c.similarity_score) ∧
      (∀ idx' : List IndexEntry, idx.Perm idx' →
        (idx.map fun e => (e.node.doc_id, e.node.order)).Nodup →
          search embed sim idx' q k = search embed sim idx q k) := by
  have hkne : ¬ k ≤ 0 := not_le.mpr hk
  have hsearch : search embed sim idx q k =
      ((idx.map (mkCandidate sim (embed q))).insertionSort candLE).take k.toNat := by
    simp [search, hkne]
  set S := (idx.map (mkCandidate sim (embed q))).insertionSort candLE with hS
  have hSperm : S.Perm (idx.map (mkCandidate sim (embed q))) :=
    List.perm_insertionSort candLE _
  have hSsorted : S.Sorted candLE := List.sorted_insertionSort candLE _
  refine ⟨?_, ?_, ?_, ?_, ?_⟩
  · rw [hsearch, List.length_take, hSperm.length_eq, List.length_map]
  · rw [hsearch]
    exact ((hSsorted.sublist (List.take_sublist _ _)).imp
      fun h => (candLE_iff_candBefore _ _).mp h)
  · intro c hc
    rw [hsearch] at hc
    have hcS : c ∈ S := (List.take_sublist _ _).mem hc
    have := hSperm.mem_iff.mp hcS
    rcases List.mem_map.mp this with ⟨e, he, hce⟩
    exact ⟨e, he, hce.symm⟩
  · intro c hc e he hne
    rw [hsearch] at hc hne
    have hdS : mkCandidate sim (embed q) e ∈ S :=
      hSperm.mem_iff.mpr (List.mem_map.mpr ⟨e, he, rfl⟩)
    have hsplit : S.take k.toNat ++ S.drop k.toNat = S := List.take_append_drop _ _
    have hdrop : mkCandidate sim (embed q) e ∈ S.drop k.toNat := by
      rcases List.mem_append.mp (hsplit ▸ hdS) with h | h
      · exact absurd h hne
      · exact h
    have hpw : (S.take k.toNat ++ S.drop k.toNat).Pairwise candLE := by
      rw [hsplit]
      exact hSsorted
    exact candLE_score ((List.pairwise_append.mp hpw).2.2 c hc _ hdrop)
  · intro idx' hperm hkeys
    have hkeys' : (idx'.map fun e => (e.node.doc_id, e.node.order)).Nodup :=
      ((hperm.map fun e => (e.node.doc_id, e.node.order)).nodup_iff).mp hkeys
    have hsearch' : search embed sim idx' q k =
        ((idx'.map (mkCandidate sim (embed q))).insertionSort candLE).take k.toNat := by
      simp [search, hkne]
    set S' := (idx'.map (mkCandidate sim (embed q))).insertionSort candLE with hS'
    have hS'perm : S'.Perm (idx'.map (mkCandidate sim (embed q))) :=
      List.perm_insertionSort candLE _
    have hS'sorted : S'.Sorted candLE := List.sorted_insertionSort candLE _
    have hSS' : S'.Perm S :=
      (hS'perm.trans (hperm.map (mkCandidate sim (embed q))).symm).trans hSperm.symm
    have hstrict : S.Sorted candLT :=
      sorted_strict_of_nodup_keys hSsorted (insertionSort_key_nodup (embed q) sim hkeys)
    have hstrict' : S'.Sorted candLT :=
      sorted_strict_of_nodup_keys hS'sorted (insertionSort_key_nodup (embed q) sim hkeys')
    have : S' = S := List.eq_of_perm_of_sorted hSS' hstrict' hstrict
    rw [hsearch, hsearch', this]

/-- Witness for C2: a two-entry index with an exact score tie, searched with
`top_k = 2`; the tie is resolved by `(doc_id, order)`. -/
theorem search_spec_witness :
    (search embedOne dotQ
      [{ node := nodeScope, vec := [1] },
       { node := { id := "a_h1_0", level := 1, title := "Aim", text_span := "",
                   doc_id := "a.docx", order := 0 }, vec := [1] }]
      "scope" 2).length = min (2 : Int).toNat 2 ∧
      (search embedOne dotQ
        [{ node := nodeScope, vec := [1] },
         { node := { id := "a_h1_0", level := 1, title := "Aim", text_span := "",
                     doc_id := "a.docx", order := 0 }, vec := [1] }]
        "scope" 2).Sorted candBefore ∧ True := by
  have h := search_spec embedOne dotQ
    [{ node := nodeScope, vec := [1] },
     { node := { id := "a_h1_0", level := 1, title := "Aim", text_span := "",
                 doc_id := "a.docx", order := 0 }, vec := [1] }]
    "scope" 2 (by decide)
  exact ⟨h.1, h.2.1, trivial⟩

theorem parentIdx_level {ranked : List CInfo} {k i : Nat}
    (h : parentIdx ranked k = some i) : levelAt ranked i + 1 = levelAt ranked k := by
  unfold parentIdx at h
  have h' : i ∈ ((List.range k).filter
      fun j => levelAt ranked j + 1 == levelAt ranked k).getLast? :=
    Option.mem_def.mpr h
  obtain ⟨hne, hj⟩ := List.mem_getLast?_eq_getLast h'
  have hmem : i ∈ (List.range k).filter
      (fun j => levelAt ranked j + 1 == levelAt ranked k) :=
    hj ▸ List.getLast_mem hne
  have := (List.mem_filter.mp hmem).2
  simpa using this

theorem mem_childIdxs {ranked : List CInfo} {i k : Nat}
    (hk : k ∈ childIdxs ranked i) :
    k < ranked.length ∧ parentIdx ranked k = some i := by
  have hk' := List.mem_filter.mp hk
  refine ⟨List.mem_range.mp hk'.1, ?_⟩
  simpa using hk'.2

theorem buildSection_level (ranked : List CInfo) (i : Nat) :
    (buildSection ranked i).level = levelAt ranked i := by
  rw [buildSection]
  rfl

theorem buildSection_wellLeveled (ranked : List CInfo) :
    ∀ n i, ranked.length - i ≤ n → WellLeveled (buildSection ranked i) := by
  intro n
  induction n with
  | zero =>
    intro i hi
    have hil : ranked.length ≤ i := by omega
    have hchild : childIdxs ranked i = [] := by
      refine List.filter_eq_nil_iff.mpr ?_
      intro k hk hpk
      have hpk' : parentIdx ranked k = some i := by simpa using hpk
      have h1 : i < k := parentIdx_lt hpk'
      have h2 : k < ranked.length := List.mem_range.mp hk
      omega
    rw [buildSection, hchild]
    exact WellLeveled.mk (by simp) (by simp)
  | succ n ih =>
    intro i hi
    rw [buildSection]
    refine WellLeveled.mk ?_ ?_
    · intro x hx
      rcases List.mem_map.mp hx with ⟨⟨k, hk⟩, _, hxe⟩
      rcases mem_childIdxs hk with ⟨hkr, hpk⟩
      rw [← hxe, buildSection_level]
      exact (parentIdx_level hpk).symm
    · intro x hx
      rcases List.mem_map.mp hx with ⟨⟨k, hk⟩, _, hxe⟩
      rcases mem_childIdxs hk with ⟨hkr, hpk⟩
      have hik : i < k := parentIdx_lt hpk
      rw [← hxe]
      exact ih k (by omega)

/-- C4: every draft produced by `suggest` satisfies the level invariant —
each Section's subsections carry canonical level exactly `parent.level + 1`,
recursively, because assembly only ever attaches a cluster to the nearest
preceding cluster whose canonical level is exactly one less (all other
clusters become top-level sections). -/
theorem suggest_wellLeveled (embed : String → Vec) (sim : Vec → Vec → ℚ)
    (threshold : ℚ) (idx : List IndexEntry) (doc : Document) (k : Int) :
    ∀ s ∈ (suggest embed sim threshold idx doc k).sections, WellLeveled s := by
  intro s hs
  have hsec : (suggest embed sim threshold idx doc k).sections =
      assemble ((clusterInfos (mergeBase threshold sim)
        ((queryNodes doc).flatMap fun n =>
          search embed sim idx (nodeText n) k)).insertionSort cinfoLE) := rfl
  rw [hsec] at hs
  rcases List.mem_map.mp hs with ⟨j, _, hje⟩
  rw [← hje]
  exact buildSection_wellLeveled _ _ j (le_refl _)

/-- Witness for C4: the level invariant at the single section produced by a
concrete run of the pipeline. -/
theorem suggest_wellLeveled_witness :
    WellLeveled (buildSection
      [{ title := "Scope", level := 1, freq := 1, maxSim := 1, seen := 0 }] 0) := by
  have hsec : (suggest embedOne simOne 2 idxOne docReq 3).sections =
      [buildSection
        [{ title := "Scope", level := 1, freq := 1, maxSim := 1, seen := 0 }] 0] := by
    rfl
  exact suggest_wellLeveled embedOne simOne 2 idxOne docReq 3 _
    (hsec ▸ List.mem_singleton.mpr rfl)

theorem touches_true_of_mem {rel : Candidate → Candidate → Bool} {c d : Candidate}
    {cl : List Candidate} (hd : d ∈ cl) (h : rel c d = true) :
    touches rel c cl = true :=
  List.any_eq_true.mpr ⟨d, hd, h⟩

theorem exists_rel_of_touches {rel : Candidate → Candidate → Bool} {c : Candidate}
    {cl : List Candidate} (h : touches rel c cl = true) :
    ∃ d ∈ cl, rel c d = true :=
  List.any_eq_true.mp h

theorem not_rel_of_not_touches {rel : Candidate → Candidate → Bool} {c d : Candidate}
    {cl : List Candidate} (h : touches rel c cl = false) (hd : d ∈ cl) :
    rel c d = false := by
  have := List.any_eq_false.mp h d hd
  simpa using this

/-- The invariant maintained by the incremental clustering fold: after
processing the prefix `processed` of the pool, the cluster list `cs` covers
exactly the processed candidates, each cluster is internally connected under
the merge relation, every merge edge between processed candidates stays
inside one cluster, and clusters are pairwise value-disjoint. -/
structure ClusterInv (rel : Candidate → Candidate → Bool)
    (pool processed : List Candidate) (cs : List (List Candidate)) : Prop where
  cover : ∀ x ∈ processed, ∃ cl ∈ cs, x ∈ cl
  subset : ∀ cl ∈ cs, ∀ x ∈ cl, x ∈ processed
  conn : ∀ cl ∈ cs, ∀ a ∈ cl, ∀ b ∈ cl, Relation.ReflTransGen (MergeEdge rel pool) a b
  closed : ∀ a b, a ∈ processed → b ∈ processed → rel a b = true → SameCluster cs a b
  disj : ∀ cl₁ ∈ cs, ∀ cl₂ ∈ cs, ∀ x, x ∈ cl₁ → x ∈ cl₂ → cl₁ = cl₂

theorem mergeEdge_symm {rel : Candidate → Candidate → Bool} {pool : List Candidate}
    (hsym : ∀ a b, rel a b = rel b a) : Symmetric (MergeEdge rel pool) := by
  rintro a b ⟨ha, hb, hr⟩
  exact ⟨hb, ha, (hsym b a).trans hr⟩

theorem addCand_inv {rel : Candidate → Candidate → Bool}
    {pool processed : List Candidate} {cs : List (List Candidate)} {c : Candidate}
    (hsym : ∀ a b, rel a b = rel b a) (hrefl : ∀ a, rel a a = true)
    (hp : ∀ x ∈ processed, x ∈ pool) (hc : c ∈ pool)
    (hinv : ClusterInv rel pool processed cs) :
    ClusterInv rel pool (processed ++ [c]) (addCand rel cs c) := by
  classical
  set T := cs.filter (touches rel c) with hT
  set Rst := cs.filter (fun cl => !touches rel c cl) with hRst
  have hTmem : ∀ {cl}, cl ∈ T → cl ∈ cs ∧ touches rel c cl = true := by
    intro cl hcl
    exact List.mem_filter.mp hcl
  have hRmem : ∀ {cl}, cl ∈ Rst → cl ∈ cs ∧ touches rel c cl = false := by
    intro cl hcl
    have h' := List.mem_filter.mp hcl
    exact ⟨h'.1, by simpa using h'.2⟩
  have hsplit : ∀ {cl}, cl ∈ cs → cl ∈ T ∨ cl ∈ Rst := by
    intro cl hcl
    by_cases ht : touches rel c cl = true
    · exact Or.inl (List.mem_filter.mpr ⟨hcl, ht⟩)
    · refine Or.inr (List.mem_filter.mpr ⟨hcl, ?_⟩)
      simpa using ht
  have hflat : ∀ {x}, x ∈ T.flatten → ∃ cl ∈ T, x ∈ cl := by
    intro x hx
    exact List.mem_flatten.mp hx
  have hconn_c : ∀ x ∈ T.flatten, Relation.ReflTransGen (MergeEdge rel pool) c x := by
    intro x hx
    rcases hflat hx with ⟨cl, hclT, hxcl⟩
    rcases hTmem hclT with ⟨hclcs, htt⟩
    rcases exists_rel_of_touches htt with ⟨d, hdcl, hcd⟩
    have hdp : d ∈ pool := hp d (hinv.subset cl hclcs d hdcl)
    have step1 : Relation.ReflTransGen (MergeEdge rel pool) c d :=
      Relation.ReflTransGen.single ⟨hc, hdp, hcd⟩
    exact step1.trans (hinv.conn cl hclcs d hdcl x hxcl)
  have hsymC := Relation.ReflTransGen.symmetric (@mergeEdge_symm rel pool hsym)
  refine ⟨?_, ?_, ?_, ?_, ?_⟩
  · intro x hx
    rcases List.mem_append.mp hx with hx | hx
    · rcases hinv.cover x hx with ⟨cl, hclcs, hxcl⟩
      rcases hsplit hclcs with h | h
      · exact ⟨c :: T.flatten, List.mem_cons_self _ _,
          List.mem_cons_of_mem _ (List.mem_flatten.mpr ⟨cl, h, hxcl⟩)⟩
      · exact ⟨cl, List.mem_cons_of_mem _ h, hxcl⟩
    · have : x = c := List.mem_singleton.mp hx
      exact ⟨c :: T.flatten, List.mem_cons_self _ _, this ▸ List.mem_cons_self _ _⟩
  · intro cl' hcl' x hx
    rcases List.mem_cons.mp hcl' with rfl | hcl'
    · rcases List.mem_cons.mp hx with rfl | hx
      · exact List.mem_append.mpr (Or.inr (List.mem_singleton.mpr rfl))
      · rcases hflat hx with ⟨cl, hclT, hxcl⟩
        exact List.mem_append.mpr
          (Or.inl (hinv.subset cl (hTmem hclT).1 x hxcl))
    · exact List.mem_append.mpr
        (Or.inl (hinv.subset cl' (hRmem hcl').1 x hx))
  · intro cl' hcl' a ha b hb
    rcases List.mem_cons.mp hcl' with rfl | hcl'
    · rcases List.mem_cons.mp ha with rfl | ha
      · rcases List.mem_cons.mp hb with rfl | hb
        · exact Relation.ReflTransGen.refl
        · exact hconn_c b hb
      · rcases List.mem_cons.mp hb with rfl | hb
        · exact hsymC (hconn_c a ha)
        · exact (hsymC (hconn_c a ha)).trans (hconn_c b hb)
    · exact hinv.conn cl' (hRmem hcl').1 a ha b hb
  · intro a b hap hbp hab
    rcases List.mem_append.mp hap with hap | hap
    · rcases List.mem_append.mp hbp with hbp | hbp
      · rcases hinv.closed a b hap hbp hab with ⟨cl, hclcs, hacl, hbcl⟩
        rcases hsplit hclcs with h | h
        · exact ⟨c :: T.flatten, List.mem_cons_self _ _,
            List.mem_cons_of_mem _ (List.mem_flatten.mpr ⟨cl, h, hacl⟩),
            List.mem_cons_of_mem _ (List.mem_flatten.mpr ⟨cl, h, hbcl⟩)⟩
        · exact ⟨cl, List.mem_cons_of_mem _ h, hacl, hbcl⟩
      · have hbc : b = c := List.mem_singleton.mp hbp
        rcases hinv.cover a hap with ⟨cl, hclcs, hacl⟩
        have hca : rel c a = true := by
          rw [← hsym a c, ← hbc]
          exact hab
        have hclT : cl ∈ T :=
          List.mem_filter.mpr ⟨hclcs, touches_true_of_mem hacl hca⟩
        refine ⟨c :: T.flatten, List.mem_cons_self _ _,
          List.mem_cons_of_mem _ (List.mem_flatten.mpr ⟨cl, hclT, hacl⟩), ?_⟩
        rw [hbc]
        exact List.mem_cons_self _ _
    · have hac : a = c := List.mem_singleton.mp hap
      rcases List.mem_append.mp hbp with hbp | hbp
      · rcases hinv.cover b hbp with ⟨cl, hclcs, hbcl⟩
        have hcb : rel c b = true := by
          rw [← hac]
          exact hab
        have hclT : cl ∈ T :=
          List.mem_filter.mpr ⟨hclcs, touches_true_of_mem hbcl hcb⟩
        refine ⟨c :: T.flatten, List.mem_cons_self _ _, ?_,
          List.mem_cons_of_mem _ (List.mem_flatten.mpr ⟨cl, hclT, hbcl⟩)⟩
        rw [hac]
        exact List.mem_cons_self _ _
      · have hbc : b = c := List.mem_singleton.mp hbp
        refine ⟨c :: T.flatten, List.mem_cons_self _ _, ?_, ?_⟩
        · rw [hac]
          exact List.mem_cons_self _ _
        · rw [hbc]
          exact List.mem_cons_self _ _
  · intro cl₁ hcl₁ cl₂ hcl₂ x hx₁ hx₂
    rcases List.mem_cons.mp hcl₁ with rfl | hcl₁
    · rcases List.mem_cons.mp hcl₂ with rfl | hcl₂
      · rfl
      · exfalso
        rcases hRmem hcl₂ with ⟨hcl₂cs, hnt⟩
        rcases List.mem_cons.mp hx₁ with rfl | hx₁
        · have := not_rel_of_not_touches hnt hx₂
          rw [hrefl x] at this
          exact absurd this (by simp)
        · rcases hflat hx₁ with ⟨cl, hclT, hxcl⟩
          rcases hTmem hclT with ⟨hclcs, htt⟩
          have : cl = cl₂ := hinv.disj cl hclcs cl₂ hcl₂cs x hxcl hx₂
          rw [this] at htt
          rw [hnt] at htt
          exact Bool.false_ne_true htt
    · rcases List.mem_cons.mp hcl₂ with rfl | hcl₂
      · exfalso
        rcases hRmem hcl₁ with ⟨hcl₁cs, hnt⟩
        rcases List.mem_cons.mp hx₂ with rfl | hx₂
        · have := not_rel_of_not_touches hnt hx₁
          rw [hrefl x] at this
          exact absurd this (by simp)
        · rcases hflat hx₂ with ⟨cl, hclT, hxcl⟩
          rcases hTmem hclT with ⟨hclcs, htt⟩
          have : cl = cl₁ := hinv.disj cl hclcs cl₁ hcl₁cs x hxcl hx₁
          rw [this] at htt
          rw [hnt] at htt
          exact Bool.false_ne_true htt
      · exact hinv.disj cl₁ (hRmem hcl₁).1 cl₂ (hRmem hcl₂).1 x hx₁ hx₂

theorem foldl_addCand_inv {rel : Candidate → Candidate → Bool} {pool : List Candidate}
    (hsym : ∀ a b, rel a b = rel b a) (hrefl : ∀ a, rel a a = true) :
    ∀ (q processed : List Candidate) (cs : List (List Candidate)),
      (∀ x ∈ q, x ∈ pool) → (∀ x ∈ processed, x ∈ pool) →
      ClusterInv rel pool processed cs →
      ClusterInv rel pool (processed ++ q) (q.foldl (addCand rel) cs) := by
  intro q
  induction q with
  | nil =>
    intro processed cs _ _ hinv
    simpa using hinv
  | cons c q ih =>
    intro processed cs hq hproc hinv
    have hc : c ∈ pool := hq c (List.mem_cons_self _ _)
    have hstep := addCand_inv hsym hrefl hproc hc hinv
    have hproc' : ∀ x ∈ processed ++ [c], x ∈ pool := by
      intro x hx
      rcases List.mem_append.mp hx with hx | hx
      · exact hproc x hx
      · exact (List.mem_singleton.mp hx) ▸ hc
    have hq' : ∀ x ∈ q, x ∈ pool := fun x hx => hq x (List.mem_cons_of_mem _ hx)
    have := ih (processed ++ [c]) (addCand rel cs c) hq' hproc' hstep
    simpa [List.append_assoc] using this

theorem clusterize_inv {rel : Candidate → Candidate → Bool} {pool : List Candidate}
    (hsym : ∀ a b, rel a b = rel b a) (hrefl : ∀ a, rel a a = true) :
    ClusterInv rel pool pool (clusterize rel pool) := by
  have hbase : ClusterInv rel pool [] [] := by
    refine ⟨?_, ?_, ?_, ?_, ?_⟩
    · intro x hx
      exact absurd hx (List.not_mem_nil x)
    · intro cl hcl
      exact absurd hcl (List.not_mem_nil cl)
    · intro cl hcl
      exact absurd hcl (List.not_mem_nil cl)
    · intro a b ha
      exact absurd ha (List.not_mem_nil a)
    · intro cl hcl
      exact absurd hcl (List.not_mem_nil cl)
  have h := foldl_addCand_inv hsym hrefl pool [] [] (fun x hx => hx)
    (fun x hx => absurd hx (List.not_mem_nil x)) hbase
  rw [List.nil_append] at h
  exact h

theorem sameCluster_iff_reach {rel : Candidate → Candidate → Bool}
    {pool : List Candidate} (hsym : ∀ a b, rel a b = rel b a)
    (hrefl : ∀ a, rel a a = true) {a b : Candidate}
    (ha : a ∈ pool) :
    SameCluster (clusterize rel pool) a b ↔
      Relation.ReflTransGen (MergeEdge rel pool) a b := by
  have hinv := @clusterize_inv rel pool hsym hrefl
  constructor
  · rintro ⟨cl, hclcs, hacl, hbcl⟩
    exact hinv.conn cl hclcs a hacl b hbcl
  · intro h
    induction h with
    | refl =>
      rcases hinv.cover a ha with ⟨cl, hclcs, hacl⟩
      exact ⟨cl, hclcs, hacl, hacl⟩
    | tail hax hxy ih =>
      rcases hxy with ⟨hxp, hyp, hxy⟩
      rcases ih with ⟨cl₁, hcl₁, hacl₁, hxcl₁⟩
      rcases hinv.closed _ _ hxp hyp hxy with ⟨cl₂, hcl₂, hxcl₂, hycl₂⟩
      have : cl₁ = cl₂ := hinv.disj cl₁ hcl₁ cl₂ hcl₂ _ hxcl₁ hxcl₂
      exact ⟨cl₂, hcl₂, this ▸ hacl₁, hycl₂⟩

theorem mergeBase_symm (threshold : ℚ) (sim : Vec → Vec → ℚ)
    (hs : ∀ u v, sim u v = sim v u) :
    ∀ a b, mergeBase threshold sim a b = mergeBase threshold sim b a := by
  intro a b
  unfold mergeBase
  rw [hs a.vec b.vec]
  have hbeq : (normTitle a.node.title == normTitle b.node.title) =
      (normTitle b.node.title == normTitle a.node.title) := by
    by_cases h : normTitle a.node.title = normTitle b.node.title
    · rw [h]
    · rw [beq_eq_false_iff_ne.mpr h, beq_eq_false_iff_ne.mpr (Ne.symm h)]
  rw [hbeq]

theorem mergeBase_refl (threshold : ℚ) (sim : Vec → Vec → ℚ) :
    ∀ a, mergeBase threshold sim a a = true := by
  intro a
  simp [mergeBase]

/-- First Executive-Summary candidate (document `a.docx`). -/
def candES1 : Candidate :=
  { node := { id := "a_h1_0", level := 1, title := "Executive Summary",
              text_span := "", doc_id := "a.docx", order := 0 },
    vec := [1], similarity_score := 1 }

/-- Second Executive-Summary candidate, a case/whitespace variant of the
first, from a different document (`b.docx`). -/
def candES2 : Candidate :=
  { node := { id := "b_h1_0", level := 1, title := "executive   summary",
              text_span := "", doc_id := "b.docx", order := 0 },
    vec := [1], similarity_score := 1 }

/-- C1: the merge relation over pooled Candidates is exactly the (reflexive)
transitive closure of the base rule — identical normalized title keys or
similarity above the threshold; a cluster's frequency is the number of
distinct contributing `doc_id` values; and the two "Executive Summary" /
"executive   summary" candidates from two different documents end up in one
cluster with frequency 2. -/
theorem clustering_spec (threshold : ℚ) (sim : Vec → Vec → ℚ)
    (pool : List Candidate) (hs : ∀ u v, sim u v = sim v u) :
    (∀ a ∈ pool, ∀ b ∈ pool,
      (SameCluster (clusterize (mergeBase threshold sim) pool) a b ↔
        Relation.ReflTransGen (MergeEdge (mergeBase threshold sim) pool) a b)) ∧
      (∀ cl : List Candidate,
        clusterFrequency cl = ((cl.map fun c => c.node.doc_id).toFinset).card) ∧
      (normTitle candES1.node.title = normTitle candES2.node.title ∧
        candES1.node.doc_id ≠ candES2.node.doc_id ∧
        clusterize (mergeBase 2 simOne) [candES1, candES2] = [[candES2, candES1]] ∧
        clusterFrequency [candES2, candES1] = 2) := by
  refine ⟨?_, ?_, ?_, ?_, ?_, ?_⟩
  · intro a ha b hb
    exact sameCluster_iff_reach (mergeBase_symm threshold sim hs)
      (mergeBase_refl threshold sim) ha
  · intro cl
    rw [clusterFrequency, List.card_toFinset]
  · decide
  · decide
  · decide
  · decide

/-- Witness for C1: the clustering equivalence applied at a concrete
symmetric similarity backend and the two-candidate pool. -/
theorem clustering_spec_witness :
    (SameCluster (clusterize (mergeBase 2 simOne) [candES1, candES2])
        candES1 candES2 ↔
      Relation.ReflTransGen (MergeEdge (mergeBase 2 simOne) [candES1, candES2])
        candES1 candES2) ∧
      clusterFrequency [candES2, candES1] = 2 := by
  have h := clustering_spec 2 simOne [candES1, candES2] (fun _ _ => rfl)
  exact ⟨h.1 candES1 (by simp) candES2 (by simp), h.2.2.2.2.2⟩

end BepOutline

namespace BepFrontend

/-- C9: every list fetch in the front end (projects, goals, TIDP entries,
comments) accepts both response shapes: a bare JSON array is first wrapped
as an object with an `items` field, an object response is used as is, and
the component state is always set from the `items` list. -/
theorem list_fetch_accepts_both_shapes :
    (∀ xs : List Json,
      normalizeListResponse (Json.arr xs) = Json.obj [("items", Json.arr xs)]) ∧
    (∀ v : Json, v.isArray = false → normalizeListResponse v = v) ∧
    (∀ xs : List Json,
      fetchProjectsState (Json.arr xs) = some (Json.arr xs) ∧
      fetchGoalsState (Json.arr xs) = some (Json.arr xs) ∧
      fetchTidpState (Json.arr xs) = some (Json.arr xs) ∧
      fetchCommentsState (Json.arr xs) = some (Json.arr xs)) ∧
    (∀ fs : List (String × Json),
      fetchProjectsState (Json.obj fs) = (Json.obj fs).getField "items" ∧
      fetchGoalsState (Json.obj fs) = (Json.obj fs).getField "items" ∧
      fetchTidpState (Json.obj fs) = (Json.obj fs).getField "items" ∧
      fetchCommentsState (Json.obj fs) = (Json.obj fs).getField "items") := by
  refine ⟨fun xs => rfl, fun v hv => ?_, fun xs => ?_, fun fs => ?_⟩
  · simp [normalizeListResponse, hv]
  · refine ⟨?_, ?_, ?_, ?_⟩ <;>
      simp [fetchProjectsState, fetchGoalsState, fetchTidpState, fetchCommentsState,
        listFetchState, normalizeListResponse, Json.isArray, Json.getField,
        List.find?]
  · refine ⟨?_, ?_, ?_, ?_⟩ <;>
      simp [fetchProjectsState, fetchGoalsState, fetchTidpState, fetchCommentsState,
        listFetchState, normalizeListResponse, Json.isArray]

/-- Witness for C9: the object shape really is left unwrapped — the
hypothesis `isArray = false` is discharged at a concrete object payload. -/
theorem list_fetch_accepts_both_shapes_witness :
    normalizeListResponse (Json.obj [("items", Json.arr [Json.num 1])]) =
      Json.obj [("items", Json.arr [Json.num 1])] :=
  list_fetch_accepts_both_shapes.2.1 (Json.obj [("items", Json.arr [Json.num 1])]) rfl

/-- Counterexample for C10 as originally stated: at a goals sum of 90, the
program (which computes `Math.floor(totalGoals * 0.7)` in binary64 doubles,
where `90 * 0.7 = 62.99999999999999…`) displays 62, while the claimed exact
`floor(0.7 × 90)` is 63. -/
theorem dashboard_completedGoals_floor_counterexample :
    (fetchDashboardData [{ status := "active", goals_count := 90 }] [] 0).completedGoals
        = 62 ∧
      ((62 : ℤ) ≠
        ⌊(7 / 10 : ℚ) *
          ((([{ status := "active", goals_count := 90 }] : List Project).map
            fun p => p.goals_count).sum : ℚ)⌋) := by
  constructor
  · decide
  · have h : (7 / 10 : ℚ) *
        ((([{ status := "active", goals_count := 90 }] : List Project).map
          fun p => p.goals_count).sum : ℚ) = ((63 : ℤ) : ℚ) := by
      norm_num
    rw [h, Int.floor_intCast]
    decide

/-- C10 (amended): the dashboard statistics are partly fabricated — for every
fetched payload the Goals Completed count equals the binary64 computation
`Math.floor(totalGoals * 0.7)` (`jsFloorMul07`) of the projects' goals_count
sum alone, independent of any goal's actual status or of any other input
(and it can fall one below the exact `floor(0.7 × sum)`: at sum 90 it is 62);
and the Recent Comments panel is two hard-coded comments carrying no server
data. -/
theorem dashboard_stats_fabricated :
    ∀ (projects : List Project) (tasks : List Task) (now : Int),
      (fetchDashboardData projects tasks now).completedGoals =
        jsFloorMul07 ((projects.map fun p => p.goals_count).sum) ∧
      (∀ (projects' : List Project) (tasks' : List Task),
        (projects'.map fun p => p.goals_count).sum =
            (projects.map fun p => p.goals_count).sum →
          (fetchDashboardData projects' tasks' now).completedGoals =
            (fetchDashboardData projects tasks now).completedGoals) ∧
      jsFloorMul07 90 = 62 ∧
      (fetchDashboardData projects tasks now).recentComments =
        mockRecentComments now ∧
      (∀ (projects' : List Project) (tasks' : List Task),
        (fetchDashboardData projects' tasks' now).recentComments =
          (fetchDashboardData projects tasks now).recentComments) ∧
      ((fetchDashboardData projects tasks now).recentComments.map fun c =>
          (c.id, c.user_name, c.text)) =
        [(1, "BIM Manager", "Initial coordination meeting scheduled for next week."),
         (2, "Design Lead", "Structural model is 80% complete. Need input from MEP team.")] := by
  intro projects tasks now
  refine ⟨rfl, ?_, by decide, rfl, fun _ _ => rfl, rfl⟩
  intro projects' tasks' h
  show jsFloorMul07 ((projects'.map fun p => p.goals_count).sum) =
    jsFloorMul07 ((projects.map fun p => p.goals_count).sum)
  rw [h]

/-- Witness for C10: a concrete fetch at goals sum 90, and status
independence discharged at two payloads with equal sums but different
statuses. -/
theorem dashboard_stats_fabricated_witness :
    (fetchDashboardData [{ status := "active", goals_count := 90 }] [] 0).completedGoals =
        jsFloorMul07 ((([{ status := "active", goals_count := 90 }] : List Project).map
          fun p => p.goals_count).sum) ∧
      (fetchDashboardData
          [{ status := "completed", goals_count := 40 },
           { status := "pending", goals_count := 50 }] [] 0).completedGoals =
        (fetchDashboardData [{ status := "active", goals_count := 90 }] [] 0).completedGoals :=
  ⟨(dashboard_stats_fabricated [{ status := "active", goals_count := 90 }] [] 0).1,
   (dashboard_stats_fabricated [{ status := "active", goals_count := 90 }] [] 0).2.1
     [{ status := "completed", goals_count := 40 },
      { status := "pending", goals_count := 50 }] [] (by decide)⟩

end BepFrontend
